import Mathlib

/-!
# Verification of the `configure` secrets-synchronization tool

A shallow embedding of the Rust sources (`src/string.rs`, `src/git.rs`,
`src/encryption.rs`, `src/fs.rs`, `src/configure.rs`) into Lean 4, together
with theorems settling the specification's claims about them.

Modelling conventions:
* Rust `Result<T, ConfigureError>` together with the possibility of a
  process abort (`panic!`, `expect`, `unwrap`, out-of-range slicing) is
  embedded as `Res α := Except Failure α`, where `Failure` distinguishes a
  returned `ConfigureError` from a panic.
* Machine integers (`i32`) are embedded as `Int`; the only place the `i32`
  range matters (`str::parse::<i32>`) carries an explicit range check.
* External collaborators (the spec excludes them and treats them as opaque:
  libsodium's `secretbox`, SHA-256, `serde_json`, the git subprocess) are
  modelled by executable stand-ins that satisfy exactly the interface the
  spec assigns them; each such stand-in is marked in its doc comment.
* File systems and environments are explicit function-valued states.
-/

namespace Configure

/-- The error enum of `configure.rs` (`ConfigureError`), extended with the
variants used by `fs.rs`/`encryption.rs` (`MissingDecryptionKey`,
`InputFileNotReadable`, `OutputFileNotWritable`). -/
inductive ConfigureError where
  | DataDecryptionError
  | SecretsRepoError
  | GitStatusParsingError
  | GitGetCurrentBranchError
  | GitStatusUnknownError
  | ProjectNotPresent
  | ConfigureFileNotReadable
  | ConfigureFileNotWritable
  | ConfigureFileNotValid
  | ConfigureDataNotValid
  | SecretsNotPresent
  | EncryptedFileMissing
  | KeysFileNotReadable
  | KeysFileNotWritable
  | KeysFileIsNotValid
  | KeysDataIsNotValid
  | MissingProjectKey
  | MissingDecryptionKey
  | DecryptionKeyEncodingError
  | DecryptionKeyParsingError
  | InputFileNotReadable
  | OutputFileNotWritable
deriving DecidableEq, Repr

/-- How a Rust computation can fail: by returning an error value, or by
aborting the process (`panic!` / `expect` / `unwrap` / slice out of range). -/
inductive Failure where
  | err (e : ConfigureError)
  | panic (msg : String)
deriving DecidableEq, Repr

/-- Outcome of a fallible Rust computation. -/
abbrev Res (α : Type) := Except Failure α

instance {ε α : Type} [DecidableEq ε] [DecidableEq α] : DecidableEq (Except ε α) :=
  fun x y =>
    match x, y with
    | .ok a, .ok b =>
      if h : a = b then isTrue (by rw [h]) else isFalse (fun hh => h (Except.ok.inj hh))
    | .error e, .error f =>
      if h : e = f then isTrue (by rw [h]) else isFalse (fun hh => h (Except.error.inj hh))
    | .ok _, .error _ => isFalse Except.noConfusion
    | .error _, .ok _ => isFalse Except.noConfusion

/-- `Result::expect`: an `Ok` value passes through, any failure becomes a
process abort. -/
def expectRes (r : Res α) (msg : String) : Res α :=
  match r with
  | .ok a => .ok a
  | .error _ => .error (.panic msg)

/-! ## `src/string.rs` -/

/-- `string.rs::index_of_string_in`: position of the first occurrence of
`string` in `strings`, as an `i32`. -/
def index_of_string_in (string : String) (strings : List String) : Option Int :=
  match strings.findIdx? (fun r => r = string) with
  | some ix => some (ix : Int)
  | none => none

/-- `string.rs::distance_between_strings_in`: absolute difference of the two
indices when both strings occur, `None` otherwise. -/
def distance_between_strings_in (string1 string2 : String)
    (strings : List String) : Option Int :=
  match index_of_string_in string1 strings, index_of_string_in string2 strings with
  | some ix1, some ix2 => some ((ix1 - ix2).natAbs : Int)
  | _, _ => none

/-! ## `src/git.rs` — hash log and distance -/

/-- The observable data behind `SecretsRepo::get_hash_list`: the lines
produced by the bounded `git log --pretty=format:%H` subprocess (newest
commit first), or the subprocess's I/O failure. -/
structure StoreLog where
  logLines : Except Unit (List String)

/-- `git.rs::get_hash_list`: reverses the subprocess lines, so the returned
log is oldest first. -/
def get_hash_list (s : StoreLog) : Except Unit (List String) :=
  s.logLines.map List.reverse

/-- `git.rs::distance_between_local_commit_hashes`. Identical hashes
short-circuit to `0` before the log is consulted; a hash absent from the log
panics (`unwrap_or_else(panic!)`); an unavailable log surfaces the I/O error
(converted by `?` through `ConfigureError::DataDecryptionError`'s `#[from]`). -/
def distance_between_local_commit_hashes (s : StoreLog) (hash1 hash2 : String) :
    Res Int :=
  if hash1 = hash2 then .ok 0
  else
    match get_hash_list s with
    | .error _ => .error (.err .DataDecryptionError)
    | .ok hash_list =>
      match hash_list.findIdx? (fun r => r = hash1) with
      | none =>
        .error (.panic "The pinned hash in .configure does not exist in the repository history")
      | some index_of_configure_file_hash =>
        match hash_list.findIdx? (fun r => r = hash2) with
        | none =>
          .error (.panic "The provided hash does not exist in the repository history")
        | some index_of_latest_repo_hash =>
          .ok (((index_of_latest_repo_hash : Int) - (index_of_configure_file_hash : Int)).natAbs : Int)

/-! ## `src/git.rs` — `current_branch` -/

/-- Error codes distinguished by `current_branch`'s match on `repo.head()`. -/
inductive GitErrorCode where
  | unbornBranch
  | notFound
  | other
deriving DecidableEq, Repr

/-- The observable outcome of `repo.head()` followed by `shorthand()`:
either a head reference (whose shorthand may be unreadable), or an error
with a code. -/
inductive HeadResult where
  | ok (shorthand : Option String)
  | err (code : GitErrorCode)
deriving DecidableEq, Repr

/-- `git.rs::SecretsRepo::current_branch`. `UnbornBranch`/`NotFound` are
mapped to `None`, other errors return `GitGetCurrentBranchError`; the final
`head.unwrap()` panics whenever the option is `None`. -/
def current_branch (h : HeadResult) : Res String :=
  match h with
  | .ok (some name) => .ok name
  | .ok none => .error (.panic "called Option.unwrap on a None value")
  | .err .unbornBranch => .error (.panic "called Option.unwrap on a None value")
  | .err .notFound => .error (.panic "called Option.unwrap on a None value")
  | .err .other => .error (.err .GitGetCurrentBranchError)

/-! ## `src/git.rs` — repo status -/

/-- `git.rs::RepoSyncState`. -/
inductive RepoSyncState where
  | ahead
  | behind
  | synced
deriving DecidableEq, Repr

/-- `git.rs::RepoStatus`. -/
structure RepoStatus where
  sync_state : RepoSyncState
  distance : Int
deriving DecidableEq, Repr

/-- `RepoStatus::synced()`. -/
def RepoStatus.syncedStatus : RepoStatus := ⟨.synced, 0⟩

/-- `str::contains` on character lists: some contiguous segment of `hay`
equals `pat`. -/
def containsList : List Char → List Char → Bool
  | [], pat => pat.isEmpty
  | c :: t, pat => ((c :: t).take pat.length == pat) || containsList t pat

/-- `str::contains`. -/
def strContains (hay pat : String) : Bool :=
  containsList hay.data pat.data

/-- Numeric value of a list of decimal digit characters (the semantics of
`str::parse` on the collected digits). -/
def digitsVal (l : List Char) : Nat :=
  l.foldl (fun n c => n * 10 + (c.toNat - 48)) 0

/-- `i32::MAX`, the bound enforced by `str::parse::<i32>`. -/
def i32Max : Nat := 2147483647

/-- `git.rs::RepoStatus::from_repo`, as a function of the porcelain status
summary text. A text containing `...` short-circuits to `Synced`; otherwise
every decimal digit character in the text is collected and parsed (an empty
or out-of-`i32`-range digit string is a `ParseIntError`, converted by `?`
into `GitStatusParsingError`), an `ahead` marker yields `Ahead`, a `behind`
marker yields `Behind`, and anything else is `GitStatusUnknownError`. -/
def RepoStatus.from_repo (status : String) : Res RepoStatus :=
  if strContains status "..." then .ok RepoStatus.syncedStatus
  else if status.data.filter (fun c => c.isDigit) = [] then
    .error (.err .GitStatusParsingError)
  else if i32Max < digitsVal (status.data.filter (fun c => c.isDigit)) then
    .error (.err .GitStatusParsingError)
  else if strContains status "ahead" then
    .ok ⟨.ahead, (digitsVal (status.data.filter (fun c => c.isDigit)) : Int)⟩
  else if strContains status "behind" then
    .ok ⟨.behind, (digitsVal (status.data.filter (fun c => c.isDigit)) : Int)⟩
  else .error (.err .GitStatusUnknownError)

/-! ## `src/encryption.rs` -/

/-- Byte sequences.  (Model bytes are naturals; only the list structure and
the fixed offsets matter to the claims.) -/
abbrev Bytes := List Nat

/-- `encryption.rs::EncryptionKey`: a wrapper around a raw sodium secretbox
key (32 bytes once built through `decode_key`). -/
structure EncryptionKey where
  key : Bytes
deriving DecidableEq, Repr

/-- Value of one base64 alphabet character (`Variant::Original`:
`A`–`Z`, `a`–`z`, `0`–`9`, `+`, `/`). -/
def base64CharVal (c : Char) : Option Nat :=
  if 'A' ≤ c ∧ c ≤ 'Z' then some (c.toNat - 65)
  else if 'a' ≤ c ∧ c ≤ 'z' then some (c.toNat - 97 + 26)
  else if '0' ≤ c ∧ c ≤ '9' then some (c.toNat - 48 + 52)
  else if c = '+' then some 62
  else if c = '/' then some 63
  else none

/-- Decode a base64 quantum of 2–4 alphabet characters into 1–3 bytes. -/
def base64Quantum : List Char → Option Bytes
  | [c1, c2] => do
    let v1 ← base64CharVal c1
    let v2 ← base64CharVal c2
    pure [v1 * 4 + v2 / 16]
  | [c1, c2, c3] => do
    let v1 ← base64CharVal c1
    let v2 ← base64CharVal c2
    let v3 ← base64CharVal c3
    pure [v1 * 4 + v2 / 16, v2 % 16 * 16 + v3 / 4]
  | [c1, c2, c3, c4] => do
    let v1 ← base64CharVal c1
    let v2 ← base64CharVal c2
    let v3 ← base64CharVal c3
    let v4 ← base64CharVal c4
    pure [v1 * 4 + v2 / 16, v2 % 16 * 16 + v3 / 4, v3 % 4 * 64 + v4]
  | _ => none

/-- Model of `sodiumoxide::base64::decode` (`Variant::Original`, an external
primitive): groups of four characters decode to three bytes, with a final
group of two or three characters completed by `=` padding. -/
def base64DecodeChars : List Char → Option Bytes
  | [] => some []
  | [c1, c2, '=', '='] => base64Quantum [c1, c2]
  | [c1, c2, c3, '='] => base64Quantum [c1, c2, c3]
  | c1 :: c2 :: c3 :: c4 :: rest => do
    let bs ← base64Quantum [c1, c2, c3, c4]
    let more ← base64DecodeChars rest
    pure (bs ++ more)
  | _ => none

/-- `base64::decode` on a string. -/
def base64Decode (s : String) : Option Bytes :=
  base64DecodeChars s.data

/-- Rust `str::trim`: drop whitespace from both ends. -/
def trimChars (l : List Char) : List Char :=
  ((l.dropWhile Char.isWhitespace).reverse.dropWhile Char.isWhitespace).reverse

/-- `encryption.rs::decode_key`: trims the string, base64-decodes it
(failure is `DecryptionKeyEncodingError`), and requires exactly 32 bytes
(failure is `DecryptionKeyParsingError`). -/
def decode_key (key : String) : Res EncryptionKey :=
  match base64DecodeChars (trimChars key.data) with
  | some decoded_key =>
    if decoded_key.length ≠ 32 then .error (.err .DecryptionKeyParsingError)
    else .ok ⟨decoded_key⟩
  | none => .error (.err .DecryptionKeyEncodingError)

/-- `encryption.rs::EncryptionKey::from_str` (delegates to `decode_key`). -/
def EncryptionKey.from_str (encryption_key : String) : Res EncryptionKey :=
  decode_key encryption_key

/-- Model of libsodium `secretbox::seal` (the spec treats the primitive as
an opaque authenticated-encryption black box): the sealed data commits to
the key, the nonce and the plaintext, and `open` rejects anything else. -/
def secretbox_seal (key : EncryptionKey) (nonce : Bytes) (msg : Bytes) : Bytes :=
  key.key ++ nonce ++ msg

/-- Model of libsodium `secretbox::open`: succeeds exactly on data sealed
under the same key and nonce, returning the plaintext. -/
def secretbox_open (key : EncryptionKey) (nonce : Bytes) (data : Bytes) :
    Option Bytes :=
  if data.take (key.key.length + nonce.length) = key.key ++ nonce then
    some (data.drop (key.key.length + nonce.length))
  else none

/-- `encryption.rs::encrypt_bytes`: a fresh 24-byte nonce (passed here as an
explicit argument, standing for `secretbox::gen_nonce`) is prepended to the
sealed data. -/
def encrypt_bytes (input : Bytes) (nonce : Bytes) (key : EncryptionKey) : Bytes :=
  nonce ++ secretbox_seal key nonce input

/-- `encryption.rs::decrypt_bytes`: the first 24 bytes are the nonce (the
`copy_from_slice` of `input[0..24]` panics when the input is shorter), the
rest is opened with the key; a failed `open` is `DataDecryptionError`. -/
def decrypt_bytes (input : Bytes) (key : EncryptionKey) : Res Bytes :=
  if input.length < 24 then
    .error (.panic "range end index 24 out of range")
  else
    match secretbox_open key (input.take 24) (input.drop 24) with
    | some decrypted_bytes => .ok decrypted_bytes
    | none => .error (.err .DataDecryptionError)

/-- An input is a valid sealed message under `key` if it is literally the
image of `encrypt_bytes` for some 24-byte nonce and some plaintext. -/
def ValidSealed (key : EncryptionKey) (input : Bytes) : Prop :=
  ∃ nonce msg, nonce.length = 24 ∧ input = encrypt_bytes msg nonce key

/-! ## `src/configure.rs` — data model -/

/-- `configure.rs::File`: one source→destination mapping.  The `source`
field is serialized under the JSON key `file` (`#[serde(rename = "file")]`). -/
structure File where
  source : String
  destination : String
deriving DecidableEq, Repr

/-- `configure.rs::Configuration`. -/
structure Configuration where
  project_name : String
  branch : String
  pinned_hash : String
  files_to_copy : List File
deriving DecidableEq, Repr

/-- `Configuration::default()`. -/
def Configuration.default : Configuration :=
  { project_name := "", branch := "", pinned_hash := "", files_to_copy := [] }

/-- `Configuration::is_empty`: structural equality with the default record. -/
def Configuration.is_empty (c : Configuration) : Bool :=
  c = Configuration.default

/-! ## `src/fs.rs` — key resolution -/

/-- The process environment (`std::env::var`), as a partial map from
variable names to values. -/
abbrev Env := String → Option String

/-- `lib.rs::ENCRYPTION_KEY_NAME`. -/
def ENCRYPTION_KEY_NAME : String := "CONFIGURE_ENCRYPTION_KEY"

/-- `lib.rs::TEMP_ENCRYPTION_KEY_NAME`. -/
def TEMP_ENCRYPTION_KEY_NAME : String := "CONFIGURE_ENCRYPTION_KEY_TEMP"

/-- The shared key registry (`keys.json`), as read by
`find_keys_file` + `read_keys`: either an association list of
`project_name → base64 key`, or the error those steps produced. -/
abbrev KeysSource := Res (List (String × String))

/-- `fs.rs::encryption_key_for_configuration`: looks the project name up in
the key registry (`MissingProjectKey` when absent) and parses the recorded
key.  The environment is never consulted here. -/
def encryption_key_for_configuration (keysFile : KeysSource)
    (configuration : Configuration) : Res EncryptionKey := do
  let keys ← keysFile
  match keys.lookup configuration.project_name with
  | some key => EncryptionKey.from_str key
  | none => .error (.err .MissingProjectKey)

/-- The key-selection prefix of `fs.rs::decrypt_files_for_configuration`
(lines 244–260): the ephemeral override variable first, then the stable
override variable, then the registry entry; if none yields a key the
operation fails with `MissingDecryptionKey`. -/
def resolve_decryption_key (env : Env) (keysFile : KeysSource)
    (configuration : Configuration) : Res EncryptionKey :=
  match env TEMP_ENCRYPTION_KEY_NAME with
  | some var => EncryptionKey.from_str var
  | none =>
    match env ENCRYPTION_KEY_NAME with
    | some var => EncryptionKey.from_str var
    | none =>
      match encryption_key_for_configuration keysFile configuration with
      | .ok var => .ok var
      | .error _ => .error (.err .MissingDecryptionKey)

/-! ## `src/fs.rs` — file application -/

/-- A flat file system: paths to contents.  Directory creation
(`create_parent_directory_for_path_if_not_exists`) is a no-op here. -/
abbrev FS := String → Option Bytes

/-- Write (or overwrite) one file. -/
def setFile (fs : FS) (path : String) (content : Bytes) : FS :=
  fun p => if p = path then some content else fs p

/-- Remove one file (`std::fs::remove_file`, or the source side of
`rename`). -/
def eraseFile (fs : FS) (path : String) : FS :=
  fun p => if p = path then none else fs p

/-- `fs.rs::hash_file`, with SHA-256 modelled as a perfect digest (the
digest of a file is its content; the claims compare digests only for
equality, and the spec's "byte-identical" reading is exactly content
equality).  A missing file is the underlying `File::open` I/O error. -/
def hash_file (fs : FS) (path : String) : Res Bytes :=
  match fs path with
  | some content => .ok content
  | none => .error (.err .DataDecryptionError)

/-- `encryption.rs::decrypt_file`: read the input file
(`InputFileNotReadable` when absent), decrypt its bytes (an `open` failure
is `DataDecryptionError`; the short-input panic aborts), and write the
result to the output path. -/
def decrypt_file (fs : FS) (input_path output_path : String)
    (key : EncryptionKey) : Res FS :=
  match fs input_path with
  | none => .error (.err .InputFileNotReadable)
  | some file_contents =>
    match decrypt_bytes file_contents key with
    | .ok decrypted_bytes => .ok (setFile fs output_path decrypted_bytes)
    | .error (.err _) => .error (.err .DataDecryptionError)
    | .error (.panic m) => .error (.panic m)

/-- `encryption.rs::encrypt_file` (the nonce generated by
`secretbox::gen_nonce` is an explicit argument): read the input file,
seal it, write the result. -/
def encrypt_file (fs : FS) (input_path output_path : String)
    (nonce : Bytes) (key : EncryptionKey) : Res FS :=
  match fs input_path with
  | none => .error (.err .InputFileNotReadable)
  | some file_contents =>
    .ok (setFile fs output_path (encrypt_bytes file_contents nonce key))

/-- The body of the per-file loop of
`fs.rs::decrypt_files_for_configuration` (lines 262–314), with the three
paths already resolved (`source` is the encrypted artifact, `destination`
the decrypted target, `backup` the timestamped backup path).  A missing
encrypted source is `EncryptedFileMissing`; an existing destination is
renamed to the backup path before decryption, and the backup is removed
exactly when the two digests agree. -/
def apply_file (fs : FS) (key : EncryptionKey)
    (source destination backup : String) : Res FS :=
  match fs source with
  | none => .error (.err .EncryptedFileMissing)
  | some _ =>
    match fs destination with
    | some oldContent =>
      let fs1 := setFile (eraseFile fs destination) backup oldContent
      match decrypt_file fs1 source destination key with
      | .error f => .error f
      | .ok fs2 =>
        match hash_file fs2 destination with
        | .error f => .error f
        | .ok new_file_hash =>
          match hash_file fs2 backup with
          | .error f => .error f
          | .ok original_file_hash =>
            if new_file_hash = original_file_hash then .ok (eraseFile fs2 backup)
            else .ok fs2
    | none => decrypt_file fs source destination key

/-- Resolved paths for one mapping: the encrypted artifact
(`project_root` ⧸ `get_encrypted_destination`), the decrypted destination,
and the timestamped backup path produced by `get_backup_destination`. -/
structure ResolvedPaths where
  encrypted : String
  decrypted : String
  backup : String
deriving DecidableEq, Repr

/-- `fs.rs::decrypt_files_for_configuration`: resolve the decryption key,
then run the per-file loop over every mapping. -/
def decrypt_files_for_configuration (env : Env) (keysFile : KeysSource)
    (pathsOf : File → ResolvedPaths) (configuration : Configuration)
    (fs : FS) : Res FS := do
  let key ← resolve_decryption_key env keysFile configuration
  configuration.files_to_copy.foldlM
    (fun acc file =>
      apply_file acc key (pathsOf file).encrypted (pathsOf file).decrypted
        (pathsOf file).backup)
    fs

/-- `fs.rs::write_encrypted_files_for_configuration`: the key is an
argument supplied by the caller (in `configure.rs` it always comes from
`encryption_key_for_configuration`); every mapping's secrets-store source is
sealed into the project's encrypted-storage location. -/
def write_encrypted_files_for_configuration (secretsFS : FS) (projectFS : FS)
    (pathsOf : File → ResolvedPaths) (nonceOf : File → Bytes)
    (configuration : Configuration) (encryption_key : EncryptionKey) : Res FS :=
  configuration.files_to_copy.foldlM
    (fun acc file =>
      match secretsFS file.source with
      | none => .error (.err .InputFileNotReadable)
      | some contents =>
        .ok (setFile acc (pathsOf file).encrypted
          (encrypt_bytes contents (nonceOf file) encryption_key)))
    projectFS

/-! ## `serde_json` layer for `Configuration`

`Configuration::to_string`/`from_str` delegate to `serde_json` with the
derived `Serialize`/`Deserialize` instances.  The external `serde_json`
layer is modelled here by an executable renderer and recursive-descent
parser specialized to the `.configure` schema
`{project_name, branch, pinned_hash, files_to_copy: [{file, destination}]}`
(spec §6): JSON strings are escaped/unescaped (quote, backslash, and
control characters via `\u00XX`), the parser tolerates whitespace between
tokens and requires nothing past the closing brace, and fields are read in
declaration order with `source` under its serde-renamed key `file`. -/

/-- Lower-case hexadecimal digit character. -/
def hexDigitChar (n : Nat) : Char :=
  if n < 10 then Char.ofNat (48 + n) else Char.ofNat (87 + n)

/-- JSON escape of one character. -/
def escapeChar (c : Char) : List Char :=
  if c = '"' then ['\\', '"']
  else if c = '\\' then ['\\', '\\']
  else if c.toNat < 32 then
    ['\\', 'u', '0', '0', hexDigitChar (c.toNat / 16), hexDigitChar (c.toNat % 16)]
  else [c]

/-- Render a JSON string literal, quotes included. -/
def renderString (s : String) : List Char :=
  '"' :: (s.data.flatMap escapeChar ++ ['"'])

/-- Render one `files_to_copy` element. -/
def renderFile (f : File) : List Char :=
  '{' :: (renderString "file" ++ ':' :: renderString f.source ++
    ',' :: renderString "destination" ++ ':' :: renderString f.destination ++ ['}'])

/-- Render the comma-separated body of the `files_to_copy` array. -/
def renderFilesBody : List File → List Char
  | [] => []
  | [f] => renderFile f
  | f :: rest => renderFile f ++ ',' :: renderFilesBody rest

/-- Render a whole configuration record. -/
def renderConfiguration (c : Configuration) : List Char :=
  '{' :: (renderString "project_name" ++ ':' :: renderString c.project_name ++
    ',' :: renderString "branch" ++ ':' :: renderString c.branch ++
    ',' :: renderString "pinned_hash" ++ ':' :: renderString c.pinned_hash ++
    ',' :: renderString "files_to_copy" ++ ':' :: '[' ::
      (renderFilesBody c.files_to_copy ++ [']', '}']))

/-- `Configuration::to_string` (via `serde_json::to_string_pretty`; the
record is always serializable, so the `ConfigureDataNotValid` arm is
unreachable). -/
def Configuration.to_string (c : Configuration) : Res String :=
  .ok ⟨renderConfiguration c⟩

/-- JSON whitespace. -/
def isWs (c : Char) : Bool :=
  c = ' ' || c = '\n' || c = '\t' || c = '\r'

/-- Skip insignificant whitespace. -/
def skipWs (l : List Char) : List Char :=
  l.dropWhile isWs

/-- Value of one hexadecimal digit character. -/
def hexVal (c : Char) : Option Nat :=
  if '0' ≤ c ∧ c ≤ '9' then some (c.toNat - 48)
  else if 'a' ≤ c ∧ c ≤ 'f' then some (c.toNat - 87)
  else if 'A' ≤ c ∧ c ≤ 'F' then some (c.toNat - 55)
  else none

/-- Parse the body of a JSON string literal (after the opening quote) up to
and including the closing quote, undoing the escapes. -/
def parseStringBody : List Char → Option (List Char × List Char)
  | [] => none
  | '"' :: rest => some ([], rest)
  | '\\' :: '"' :: rest =>
    (parseStringBody rest).map (fun p => ('"' :: p.1, p.2))
  | '\\' :: '\\' :: rest =>
    (parseStringBody rest).map (fun p => ('\\' :: p.1, p.2))
  | '\\' :: 'u' :: h1 :: h2 :: h3 :: h4 :: rest =>
    match hexVal h1, hexVal h2, hexVal h3, hexVal h4 with
    | some a, some b, some v3, some d =>
      (parseStringBody rest).map
        (fun p => (Char.ofNat (4096 * a + 256 * b + 16 * v3 + d) :: p.1, p.2))
    | _, _, _, _ => none
  | '\\' :: _ => none
  | c :: rest =>
    (parseStringBody rest).map (fun p => (c :: p.1, p.2))

/-- Parse a JSON string literal (leading whitespace allowed). -/
def parseJString (l : List Char) : Option (String × List Char) :=
  match skipWs l with
  | '"' :: rest =>
    match parseStringBody rest with
    | some (content, after) => some (⟨content⟩, after)
    | none => none
  | _ => none

/-- Expect one punctuation character (leading whitespace allowed). -/
def expectChar (c : Char) (l : List Char) : Option (List Char) :=
  match skipWs l with
  | c2 :: rest => if c2 = c then some rest else none
  | [] => none

/-- Expect the given object key followed by a colon. -/
def parseKeyHeader (key : String) (l : List Char) : Option (List Char) := do
  let (k, l1) ← parseJString l
  if k = key then expectChar ':' l1 else none

/-- Expect `"key": "value"` and return the value. -/
def parseStringField (key : String) (l : List Char) : Option (String × List Char) := do
  let l1 ← parseKeyHeader key l
  parseJString l1

/-- Parse one `files_to_copy` element. -/
def parseFileObj (l : List Char) : Option (File × List Char) := do
  let l1 ← expectChar '{' l
  let (src, l2) ← parseStringField "file" l1
  let l3 ← expectChar ',' l2
  let (dst, l4) ← parseStringField "destination" l3
  let l5 ← expectChar '}' l4
  pure (⟨src, dst⟩, l5)

/-- Parse the elements of a non-empty `files_to_copy` array, up to and
including the closing bracket.  The fuel argument dominates the number of
elements; each element consumes at least one character. -/
def parseFilesAux : Nat → List Char → Option (List File × List Char)
  | 0, _ => none
  | fuel + 1, l => do
    let (f, l1) ← parseFileObj l
    match skipWs l1 with
    | ',' :: r =>
      match parseFilesAux fuel r with
      | some (fs, rest) => some (f :: fs, rest)
      | none => none
    | ']' :: r => some ([f], r)
    | _ => none

/-- Parse the `files_to_copy` array. -/
def parseFilesList (l : List Char) : Option (List File × List Char) := do
  let l1 ← expectChar '[' l
  match skipWs l1 with
  | ']' :: r => some ([], r)
  | _ => parseFilesAux (l1.length + 1) l1

/-- Parse a whole configuration document; trailing content other than
whitespace is rejected, as `serde_json::from_str` does. -/
def parseConfigurationChars (l : List Char) : Option Configuration := do
  let l1 ← expectChar '{' l
  let (pn, l2) ← parseStringField "project_name" l1
  let l3 ← expectChar ',' l2
  let (br, l4) ← parseStringField "branch" l3
  let l5 ← expectChar ',' l4
  let (ph, l6) ← parseStringField "pinned_hash" l5
  let l7 ← expectChar ',' l6
  let l8 ← parseKeyHeader "files_to_copy" l7
  let (fs, l9) ← parseFilesList l8
  let l10 ← expectChar '}' l9
  if (skipWs l10).isEmpty then
    pure { project_name := pn, branch := br, pinned_hash := ph, files_to_copy := fs }
  else none

/-- `Configuration::from_str`: any `serde_json` failure becomes
`ConfigureFileNotValid`. -/
def Configuration.from_str (string : String) : Res Configuration :=
  match parseConfigurationChars string.data with
  | some configuration => .ok configuration
  | none => .error (.err .ConfigureFileNotValid)

/-! ## `src/configure.rs` — the update protocol -/

/-- The secrets store's checked-out state: current branch and revision. -/
structure RepoState where
  branch : String
  hash : String
deriving DecidableEq, Repr

/-- The world state an update run acts on.

The run-invariant observations (remote tips, the porcelain status text, the
hash log, the environment, the key registry, the per-mapping resolved paths
and nonces, and the per-revision secrets-store contents) are fixed fields;
the mutable parts are the store's checkout, the project tree, and the
`.configure` file. -/
structure World where
  repo : RepoState
  fetched : Bool
  remoteHash : String → String
  logLines : Except Unit (List String)
  statusText : String
  env : Env
  keysFile : KeysSource
  contentAt : String → FS
  projectFS : FS
  pathsOf : File → ResolvedPaths
  nonceOf : File → Bytes
  cfgFile : Option Configuration

/-- `git.rs::switch_to_branch_at_revision`: a branch name of `HEAD`
degenerates to a detached checkout of the revision; otherwise the head is
set to the branch and hard-reset to the revision. -/
def switch_to_branch_at_revision (w : World) (branch_name revision : String) :
    World :=
  if branch_name = "HEAD" then { w with repo := ⟨"HEAD", revision⟩ }
  else { w with repo := ⟨branch_name, revision⟩ }

/-- Modelled from the spec: `SecretsRepo::update_local_copy` is absent from
this `git.rs` snapshot (only its precursor `fetch_secrets_latest_remote_data`
is present); spec §4.1 `fetch_remote` "pulls latest remote history; does not
alter working state".  Fetching marks the remote knowledge current and
leaves the checkout untouched. -/
def update_local_copy (w : World) : World :=
  { w with fetched := true }

/-- Modelled from the spec: `SecretsRepo::status` is absent from this
`git.rs` snapshot; spec §4.4 step 4 classifies the store against its
upstream, which `git.rs` implements as `RepoStatus::from_repo` over the
porcelain summary. -/
def statusStep (w : World) : Res RepoStatus :=
  RepoStatus.from_repo w.statusText

/-- Modelled from the spec: `SecretsRepo::commits_ahead_of_configuration`
is absent from this `git.rs` snapshot; spec §4.4 step 5 computes "the
distance between the configuration's `pinned_revision` and the latest
remote revision of `tracked_branch`".  The method returns a bare count, so
internal failures are expect-style aborts. -/
def commits_ahead_of_configuration (w : World) (configuration : Configuration) :
    Res Int :=
  expectRes
    (distance_between_local_commit_hashes ⟨w.logLines⟩ configuration.pinned_hash
      (w.remoteHash configuration.branch))
    "Unable to compute distance"

/-- `git.rs::latest_remote_hash_for_branch`: the trimmed output of
`git rev-parse origin/<branch>`. -/
def latest_remote_hash_for_branch (w : World) (branch_name : String) : Res String :=
  .ok (w.remoteHash branch_name)

/-- `fs.rs::write_configuration_to` target: the `.configure` file. -/
def write_configuration_step (w : World) (c : Configuration) : World :=
  { w with cfgFile := some c }

/-- The key selection of step 6 of the update protocol
(`configure.rs` line 337): the write path takes its key from
`encryption_key_for_configuration` — the registry alone, never the
environment overrides. -/
def encryption_key_step (w : World) (c : Configuration) : Res EncryptionKey :=
  encryption_key_for_configuration w.keysFile c

/-- Step 6 of the update protocol: encrypt every mapping's secrets-store
source (read at the currently checked-out revision) into the project's
encrypted storage; failure is an expect-style abort. -/
def write_encrypted_step (w : World) (c : Configuration) (key : EncryptionKey) :
    Res World :=
  match write_encrypted_files_for_configuration (w.contentAt w.repo.hash)
      w.projectFS w.pathsOf w.nonceOf c key with
  | .ok fs => .ok { w with projectFS := fs }
  | .error _ => .error (.panic "Unable to copy encrypted files")

/-- `configure.rs::apply_configuration`: decrypt every mapping into the
project tree; failure is an expect-style abort.  Only the project tree is
touched. -/
def apply_configuration_step (w : World) (c : Configuration) : Res World :=
  match decrypt_files_for_configuration w.env w.keysFile w.pathsOf c w.projectFS with
  | .ok fs => .ok { w with projectFS := fs }
  | .error _ => .error (.panic "Unable to decrypt and copy files")

/-- `configure.rs::update_configuration`.  Interactive choices are supplied
as oracle arguments: `chosenBranch` is the branch the operator picks in
step 2 (`prompt_for_branch` with `force = true` replaces the tracked
branch), `confirmContinue` answers the ahead/behind prompt of step 3, and
`confirmAdvance` answers the advance prompt of step 4. -/
def update_configuration (w0 : World) (cfg0 : Configuration)
    (interactive : Bool) (chosenBranch : String)
    (confirmContinue : Bool) (confirmAdvance : Bool) :
    Res (Configuration × World) :=
  let starting_branch := w0.repo.branch
  let starting_ref := w0.repo.hash
  let w1 := update_local_copy w0
  let cfg1 := if interactive then { cfg0 with branch := chosenBranch } else cfg0
  match expectRes (statusStep w1) "Unable to get secrets repo status" with
  | .error f => .error f
  | .ok status =>
    let should_continue := !interactive ||
      (match status.sync_state with
       | .ahead => confirmContinue
       | .behind => confirmContinue
       | .synced => true)
    if !should_continue then .ok (cfg1, w1)
    else
      match commits_ahead_of_configuration w1 cfg1 with
      | .error f => .error f
      | .ok distance =>
        let step4 : Res (Configuration × World) :=
          if distance = 0 then
            match expectRes (latest_remote_hash_for_branch w1 cfg1.branch)
                "Unable to fetch latest commit hash" with
            | .error f => .error f
            | .ok latest_commit_hash =>
              .ok ({ cfg1 with pinned_hash := latest_commit_hash }, w1)
          else if !interactive || confirmAdvance then
            match expectRes (latest_remote_hash_for_branch w1 cfg1.branch)
                "Unable to fetch latest commit hash" with
            | .error f => .error f
            | .ok latest_commit_hash =>
              .ok ({ cfg1 with pinned_hash := latest_commit_hash },
                switch_to_branch_at_revision w1 cfg1.branch latest_commit_hash)
          else .ok (cfg1, w1)
        match step4 with
        | .error f => .error f
        | .ok (cfg2, w2) =>
          let w3 := write_configuration_step w2 cfg2
          match expectRes (encryption_key_step w3 cfg2)
              "Unable to find encryption key" with
          | .error f => .error f
          | .ok encryption_key =>
            match write_encrypted_step w3 cfg2 encryption_key with
            | .error f => .error f
            | .ok w4 =>
              let w5 := switch_to_branch_at_revision w4 starting_branch starting_ref
              match apply_configuration_step w5 cfg2 with
              | .error f => .error f
              | .ok w6 => .ok (cfg2, w6)

/-! ## Helper lemmas -/

theorem res_bind_ok {α β : Type} (a : α) (f : α → Res β) :
    (Except.ok a >>= f : Res β) = f a := rfl

theorem res_bind_error {α β : Type} (e : Failure) (f : α → Res β) :
    ((Except.error e : Res α) >>= f : Res β) = .error e := rfl

theorem opt_bind_some {α β : Type} (a : α) (f : α → Option β) :
    (some a >>= f) = f a := rfl

theorem opt_bind_none {α β : Type} (f : α → Option β) :
    ((none : Option α) >>= f) = none := rfl

theorem option_bind_some {α β : Type} (a : α) (f : α → Option β) :
    Option.bind (some a) f = f a := rfl

theorem option_bind_none {α β : Type} (f : α → Option β) :
    Option.bind (none : Option α) f = none := rfl

theorem findIdx_eq_none_of_not_mem {a : String} {l : List String} (h : a ∉ l) :
    l.findIdx? (fun r => r = a) = none := by
  rw [List.findIdx?_eq_none_iff]
  intro x hx
  simp only [decide_eq_false_iff_not]
  intro hxa
  exact h (hxa ▸ hx)

theorem natAbs_sub_comm (i j : Int) : (i - j).natAbs = (j - i).natAbs := by
  omega

theorem distance_of_findIdx (s : StoreLog) (log : List String) (x y : String)
    (ix iy : Nat) (hlog : get_hash_list s = .ok log)
    (hx : log.findIdx? (fun r => r = x) = some ix)
    (hy : log.findIdx? (fun r => r = y) = some iy) :
    distance_between_local_commit_hashes s x y =
      .ok (((ix : Int) - (iy : Int)).natAbs : Int) := by
  by_cases hxy : x = y
  · subst hxy
    rw [hx] at hy
    have : ix = iy := by injection hy
    subst this
    simp [distance_between_local_commit_hashes]
  · simp only [distance_between_local_commit_hashes, if_neg hxy, hlog, hx, hy]
    rw [natAbs_sub_comm]

/-! ## Claim C2 — the distance computation -/

/-- C2: for every pair of hashes and every oldest-first hash log, equal
hashes give distance 0 without consulting the log (also when the log is
unavailable); when both hashes occur in the log the distance is the
absolute difference of their positions, and in particular the computation
is symmetric in its two hashes. -/
theorem distance_between_local_commit_hashes_spec (s : StoreLog) (a b : String)
    (log : List String) (i j : Nat) :
    (a = b → distance_between_local_commit_hashes s a b = .ok 0) ∧
    (get_hash_list s = .ok log →
      log.findIdx? (fun r => r = a) = some i →
      log.findIdx? (fun r => r = b) = some j →
      distance_between_local_commit_hashes s a b = .ok (((i : Int) - (j : Int)).natAbs : Int) ∧
      distance_between_local_commit_hashes s a b =
        distance_between_local_commit_hashes s b a) := by
  constructor
  · intro hab
    simp [distance_between_local_commit_hashes, hab]
  · intro hlog hi hj
    refine ⟨distance_of_findIdx s log a b i j hlog hi hj, ?_⟩
    rw [distance_of_findIdx s log a b i j hlog hi hj,
      distance_of_findIdx s log b a j i hlog hj hi, natAbs_sub_comm]

/-- Witness for C2 on the log `[h0, h1, h2]` (subprocess lines are newest
first): `distance(h0, h2) = 2`, and equal hashes cost 0 even on an
unavailable log. -/
theorem distance_between_local_commit_hashes_spec_witness :
    distance_between_local_commit_hashes ⟨.ok ["h2", "h1", "h0"]⟩ "h0" "h2" = .ok 2 ∧
    distance_between_local_commit_hashes ⟨.ok ["h2", "h1", "h0"]⟩ "h0" "h2" =
      distance_between_local_commit_hashes ⟨.ok ["h2", "h1", "h0"]⟩ "h2" "h0" ∧
    distance_between_local_commit_hashes ⟨.error ()⟩ "h0" "h0" = .ok 0 := by
  have h := (distance_between_local_commit_hashes_spec ⟨.ok ["h2", "h1", "h0"]⟩
    "h0" "h2" ["h0", "h1", "h2"] 0 2).2 (by rfl) (by decide) (by decide)
  have h0 := (distance_between_local_commit_hashes_spec ⟨.error ()⟩
    "h0" "h0" [] 0 0).1 rfl
  exact ⟨h.1, h.2, h0⟩

/-! ## Claim C3 — absent hashes are a failure -/

/-- C3: for every available log and every pair of distinct hashes with at
least one of them absent from the log, the distance computation fails (the
absence aborts the run) and in particular never returns a number. -/
theorem distance_between_local_commit_hashes_absent_fails (s : StoreLog)
    (log : List String) (a b : String) (hne : a ≠ b)
    (hlog : get_hash_list s = .ok log) (habs : a ∉ log ∨ b ∉ log) :
    (∃ f : Failure, distance_between_local_commit_hashes s a b = .error f) ∧
    ∀ n : Int, distance_between_local_commit_hashes s a b ≠ .ok n := by
  have herr : ∃ f : Failure, distance_between_local_commit_hashes s a b = .error f := by
    rcases habs with ha | hb
    · simp only [distance_between_local_commit_hashes, if_neg hne, hlog,
        findIdx_eq_none_of_not_mem ha]
      exact ⟨_, rfl⟩
    · rcases hfa : log.findIdx? (fun r => decide (r = a)) with _ | ia
      · simp only [distance_between_local_commit_hashes, if_neg hne, hlog, hfa]
        exact ⟨_, rfl⟩
      · simp only [distance_between_local_commit_hashes, if_neg hne, hlog, hfa,
          findIdx_eq_none_of_not_mem hb]
        exact ⟨_, rfl⟩
  refine ⟨herr, ?_⟩
  rcases herr with ⟨f, hf⟩
  intro n hn
  rw [hf] at hn
  exact Except.noConfusion hn

/-- Witness for C3: `h9` is absent from the log `[h0, h1, h2]`, so the
computation fails and does not yield `0`. -/
theorem distance_between_local_commit_hashes_absent_fails_witness :
    (∃ f : Failure,
      distance_between_local_commit_hashes ⟨.ok ["h2", "h1", "h0"]⟩ "h0" "h9" = .error f) ∧
    distance_between_local_commit_hashes ⟨.ok ["h2", "h1", "h0"]⟩ "h0" "h9" ≠ .ok 0 := by
  have h := distance_between_local_commit_hashes_absent_fails
    ⟨.ok ["h2", "h1", "h0"]⟩ ["h0", "h1", "h2"] "h0" "h9" (by decide) (by rfl)
    (Or.inr (by decide))
  exact ⟨h.1, h.2 0⟩

/-! ## Claim C10 — the two distance generations agree on their common domain -/

/-- C10: when both hashes occur in the log, the `git.rs` distance and the
standalone `string.rs` distance return the same value; for an equal pair
absent from the list they differ — the `git.rs` version short-circuits to
0 while the `string.rs` version returns no value. -/
theorem distance_generations_equivalent (s : StoreLog) (log : List String)
    (a b : String) (i j : Nat) :
    (get_hash_list s = .ok log →
      log.findIdx? (fun r => r = a) = some i →
      log.findIdx? (fun r => r = b) = some j →
      distance_between_strings_in a b log = some (((i : Int) - (j : Int)).natAbs : Int) ∧
      distance_between_local_commit_hashes s a b =
        .ok (((i : Int) - (j : Int)).natAbs : Int)) ∧
    (a ∉ log → distance_between_strings_in a a log = none) ∧
    distance_between_local_commit_hashes s a a = .ok 0 := by
  refine ⟨?_, ?_, by simp [distance_between_local_commit_hashes]⟩
  · intro hlog hi hj
    constructor
    · rw [distance_between_strings_in, index_of_string_in, index_of_string_in, hi, hj]
    · exact distance_of_findIdx s log a b i j hlog hi hj
  · intro ha
    rw [distance_between_strings_in, index_of_string_in,
      findIdx_eq_none_of_not_mem ha]

/-- Witness for C10 on the log `[h0, h1, h2]`: both generations give 2 for
`(h0, h2)`, and for the absent hash `h9` the `git.rs` version returns 0
while the `string.rs` version returns nothing. -/
theorem distance_generations_equivalent_witness :
    distance_between_strings_in "h0" "h2" ["h0", "h1", "h2"] = some 2 ∧
    distance_between_local_commit_hashes ⟨.ok ["h2", "h1", "h0"]⟩ "h0" "h2" = .ok 2 ∧
    distance_between_strings_in "h9" "h9" ["h0", "h1", "h2"] = none ∧
    distance_between_local_commit_hashes ⟨.ok ["h2", "h1", "h0"]⟩ "h9" "h9" = .ok 0 := by
  have h := distance_generations_equivalent ⟨.ok ["h2", "h1", "h0"]⟩
    ["h0", "h1", "h2"] "h0" "h2" 0 2
  have h9 := distance_generations_equivalent ⟨.ok ["h2", "h1", "h0"]⟩
    ["h0", "h1", "h2"] "h9" "h9" 0 0
  have hmain := h.1 (by rfl) (by decide) (by decide)
  exact ⟨hmain.1, hmain.2, h9.2.1 (by decide), h9.2.2⟩

/-! ## Claim C8 — `current_branch` on a store with no checked-out branch -/

/-- C8 (divergence): on the unborn/not-found condition `current_branch`
panics via `Option::unwrap` instead of returning the
`GitGetCurrentBranchError` hard failure the claim describes; with a branch
checked out it does return the branch's shorthand name. -/
theorem current_branch_unborn_panics :
    current_branch (.err .unbornBranch) =
      .error (.panic "called Option.unwrap on a None value") ∧
    current_branch (.err .notFound) =
      .error (.panic "called Option.unwrap on a None value") ∧
    (∀ e : ConfigureError, current_branch (.err .unbornBranch) ≠ .error (.err e)) ∧
    (∀ name : String, current_branch (.ok (some name)) = .ok name) := by
  refine ⟨rfl, rfl, ?_, fun _ => rfl⟩
  intro e h
  rw [current_branch] at h
  have := Except.error.inj h
  exact Failure.noConfusion this

/-! ## Claim C4 — the sync-status prober -/

/-- C4 (counterexample): the claim reads the absence of the `...` marker as
the synced-with-no-tracking-info case, so on the text `ahead 3` (no `...`)
it requires `Synced` with magnitude 0; the code instead classifies it as
`Ahead` with magnitude 3 (matching the spec's own §8 test vector).
Conversely, on `## main...origin/main [ahead 3]` (a real porcelain ahead
line, `...` present) the claim requires `Ahead 3`, while the code
short-circuits to `Synced`. -/
theorem repo_status_from_repo_counterexample :
    strContains "ahead 3" "..." = false ∧
    RepoStatus.from_repo "ahead 3" = .ok ⟨.ahead, 3⟩ ∧
    RepoStatus.from_repo "ahead 3" ≠ .ok ⟨.synced, 0⟩ ∧
    strContains "## main...origin/main [ahead 3]" "..." = true ∧
    RepoStatus.from_repo "## main...origin/main [ahead 3]" = .ok ⟨.synced, 0⟩ ∧
    RepoStatus.from_repo "## main...origin/main [ahead 3]" ≠ .ok ⟨.ahead, 3⟩ := by
  refine ⟨by decide, by decide, ?_, by decide, by decide, ?_⟩
  · intro h
    rw [show RepoStatus.from_repo "ahead 3" = .ok ⟨.ahead, 3⟩ by decide] at h
    have h1 := Except.ok.inj h
    have h2 := congrArg RepoStatus.sync_state h1
    exact RepoSyncState.noConfusion h2
  · intro h
    rw [show RepoStatus.from_repo "## main...origin/main [ahead 3]" =
      .ok ⟨.synced, 0⟩ by decide] at h
    have h1 := Except.ok.inj h
    have h2 := congrArg RepoStatus.sync_state h1
    exact RepoSyncState.noConfusion h2

/-- C4 (amended): a summary containing the `...` tracking marker yields
`Synced` with magnitude 0; otherwise the concatenation of every decimal
digit character in the text is parsed as the magnitude (no digits, or a
value beyond the `i32` range, is the status-parse failure), and the text is
classified `Ahead` if it contains an `ahead` marker, `Behind` if it
contains `behind`, and otherwise fails with the unrecognized-status error. -/
theorem repo_status_from_repo_amended (s : String) :
    (strContains s "..." = true → RepoStatus.from_repo s = .ok ⟨.synced, 0⟩) ∧
    (strContains s "..." = false → s.data.filter (fun c => c.isDigit) = [] →
      RepoStatus.from_repo s = .error (.err .GitStatusParsingError)) ∧
    (strContains s "..." = false → s.data.filter (fun c => c.isDigit) ≠ [] →
      i32Max < digitsVal (s.data.filter (fun c => c.isDigit)) →
      RepoStatus.from_repo s = .error (.err .GitStatusParsingError)) ∧
    (strContains s "..." = false → s.data.filter (fun c => c.isDigit) ≠ [] →
      digitsVal (s.data.filter (fun c => c.isDigit)) ≤ i32Max →
      (strContains s "ahead" = true →
        RepoStatus.from_repo s =
          .ok ⟨.ahead, (digitsVal (s.data.filter (fun c => c.isDigit)) : Int)⟩) ∧
      (strContains s "ahead" = false → strContains s "behind" = true →
        RepoStatus.from_repo s =
          .ok ⟨.behind, (digitsVal (s.data.filter (fun c => c.isDigit)) : Int)⟩) ∧
      (strContains s "ahead" = false → strContains s "behind" = false →
        RepoStatus.from_repo s = .error (.err .GitStatusUnknownError))) := by
  refine ⟨?_, ?_, ?_, ?_⟩
  · intro h
    simp [RepoStatus.from_repo, h, RepoStatus.syncedStatus]
  · intro h hd
    simp [RepoStatus.from_repo, h, hd]
  · intro h hd hbig
    simp [RepoStatus.from_repo, h, hd, hbig]
  · intro h hd hle
    have hnotbig : ¬ i32Max < digitsVal (s.data.filter (fun c => c.isDigit)) :=
      Nat.not_lt.mpr hle
    refine ⟨?_, ?_, ?_⟩
    · intro ha
      simp [RepoStatus.from_repo, h, hd, hnotbig, ha]
    · intro ha hb
      simp [RepoStatus.from_repo, h, hd, hnotbig, ha, hb]
    · intro ha hb
      simp [RepoStatus.from_repo, h, hd, hnotbig, ha, hb]

/-- Witness for the amended C4 on the spec's §8 vectors: a text with the
marker and no ahead/behind is `Synced 0`, `behind 5` is `Behind 5`,
`ahead 3` is `Ahead 3`, and unrecognized digit-bearing text fails. -/
theorem repo_status_from_repo_amended_witness :
    RepoStatus.from_repo "## main...origin/main" = .ok ⟨.synced, 0⟩ ∧
    RepoStatus.from_repo "behind 5" = .ok ⟨.behind, 5⟩ ∧
    RepoStatus.from_repo "ahead 3" = .ok ⟨.ahead, 3⟩ ∧
    RepoStatus.from_repo "garbage 7" = .error (.err .GitStatusUnknownError) := by
  refine ⟨(repo_status_from_repo_amended "## main...origin/main").1 (by decide),
    ?_, ?_, ?_⟩
  · exact ((repo_status_from_repo_amended "behind 5").2.2.2 (by decide) (by decide)
      (by decide)).2.1 (by decide) (by decide)
  · exact ((repo_status_from_repo_amended "ahead 3").2.2.2 (by decide) (by decide)
      (by decide)).1 (by decide)
  · exact ((repo_status_from_repo_amended "garbage 7").2.2.2 (by decide) (by decide)
      (by decide)).2.2 (by decide) (by decide)

/-! ## Claim C7 — encrypt/decrypt round trip -/

theorem secretbox_open_seal (key : EncryptionKey) (nonce msg : Bytes) :
    secretbox_open key nonce (secretbox_seal key nonce msg) = some msg := by
  have hlen : (key.key ++ nonce).length = key.key.length + nonce.length :=
    List.length_append _ _
  rw [secretbox_open, secretbox_seal, List.take_left' hlen, if_pos rfl,
    List.drop_left' hlen]

theorem encrypt_bytes_length (msg nonce : Bytes) (key : EncryptionKey)
    (h24 : nonce.length = 24) : ¬ (encrypt_bytes msg nonce key).length < 24 := by
  rw [encrypt_bytes, List.length_append, h24]
  omega

theorem decrypt_bytes_encrypt_bytes (msg nonce : Bytes) (key : EncryptionKey)
    (h24 : nonce.length = 24) :
    decrypt_bytes (encrypt_bytes msg nonce key) key = .ok msg := by
  rw [decrypt_bytes, if_neg (encrypt_bytes_length msg nonce key h24)]
  rw [encrypt_bytes, List.take_left' h24, List.drop_left' h24, secretbox_open_seal]

theorem secretbox_open_wrong_key (key key2 : EncryptionKey) (nonce msg : Bytes)
    (hlen : key.key.length = key2.key.length) (hne : key.key ≠ key2.key) :
    secretbox_open key2 nonce (secretbox_seal key nonce msg) = none := by
  have h : (key.key ++ nonce).length = key2.key.length + nonce.length := by
    rw [List.length_append, hlen]
  rw [secretbox_open, secretbox_seal, List.take_left' h, if_neg]
  intro hcontra
  exact hne (List.append_cancel_right hcontra)

theorem decrypt_bytes_wrong_key (msg nonce : Bytes) (key key2 : EncryptionKey)
    (h24 : nonce.length = 24) (hlen : key.key.length = key2.key.length)
    (hne : key.key ≠ key2.key) :
    decrypt_bytes (encrypt_bytes msg nonce key) key2 =
      .error (.err .DataDecryptionError) := by
  rw [decrypt_bytes, if_neg (encrypt_bytes_length msg nonce key h24)]
  rw [encrypt_bytes, List.take_left' h24, List.drop_left' h24,
    secretbox_open_wrong_key key key2 nonce msg hlen hne]

theorem decrypt_bytes_invalid (key : EncryptionKey) (input : Bytes)
    (h : ¬ ValidSealed key input) : ∀ bs : Bytes, decrypt_bytes input key ≠ .ok bs := by
  intro bs hok
  rw [decrypt_bytes] at hok
  by_cases hlen : input.length < 24
  · rw [if_pos hlen] at hok
    exact Except.noConfusion hok
  · rw [if_neg hlen] at hok
    rcases hopen : secretbox_open key (input.take 24) (input.drop 24) with _ | m
    · rw [hopen] at hok
      exact Except.noConfusion hok
    · rw [secretbox_open] at hopen
      by_cases hcond : (input.drop 24).take (key.key.length + (input.take 24).length) =
          key.key ++ input.take 24
      · refine h ⟨input.take 24, (input.drop 24).drop (key.key.length + (input.take 24).length),
          ?_, ?_⟩
        · rw [List.length_take]
          omega
        · rw [encrypt_bytes, secretbox_seal]
          conv_lhs => rw [← List.take_append_drop 24 input]
          congr 1
          conv_lhs => rw [← List.take_append_drop
            (key.key.length + (input.take 24).length) (input.drop 24)]
          rw [hcond, List.append_assoc]
      · rw [if_neg hcond] at hopen
        exact Option.noConfusion hopen

/-- C7: encrypting then decrypting arbitrary bytes under the same (24-byte
nonce) key reproduces the bytes exactly; decrypting under a different key
fails with the decryption error; and any input that is not a valid sealed
message under the key — truncated or corrupted in any way — produces a
failure rather than bytes (short inputs abort on the out-of-range nonce
slice; everything else is the decryption error). -/
theorem encryption_round_trip (msg nonce : Bytes) (key key2 : EncryptionKey) :
    (nonce.length = 24 →
      decrypt_bytes (encrypt_bytes msg nonce key) key = .ok msg) ∧
    (nonce.length = 24 → key.key.length = key2.key.length → key ≠ key2 →
      decrypt_bytes (encrypt_bytes msg nonce key) key2 =
        .error (.err .DataDecryptionError)) ∧
    (∀ input : Bytes, ¬ ValidSealed key input →
      ∀ bs : Bytes, decrypt_bytes input key ≠ .ok bs) := by
  refine ⟨fun h24 => decrypt_bytes_encrypt_bytes msg nonce key h24, ?_, ?_⟩
  · intro h24 hlen hne
    refine decrypt_bytes_wrong_key msg nonce key key2 h24 hlen ?_
    intro hk
    apply hne
    cases key
    cases key2
    simpa using hk
  · exact decrypt_bytes_invalid key

/-- Witness for C7: a concrete message, 24-byte nonce and two distinct
32-byte keys; the empty input is not a valid sealed message and fails. -/
theorem encryption_round_trip_witness :
    decrypt_bytes (encrypt_bytes [1, 2, 3] (List.replicate 24 0) ⟨List.replicate 32 0⟩)
      ⟨List.replicate 32 0⟩ = .ok [1, 2, 3] ∧
    decrypt_bytes (encrypt_bytes [1, 2, 3] (List.replicate 24 0) ⟨List.replicate 32 0⟩)
      ⟨List.replicate 32 1⟩ = .error (.err .DataDecryptionError) ∧
    decrypt_bytes [] ⟨List.replicate 32 0⟩ ≠ .ok [] := by
  have h := encryption_round_trip [1, 2, 3] (List.replicate 24 0)
    ⟨List.replicate 32 0⟩ ⟨List.replicate 32 1⟩
  refine ⟨h.1 (by decide), h.2.1 (by decide) (by decide) (by decide), ?_⟩
  refine h.2.2 [] ?_ []
  rintro ⟨n, m, h24, heq⟩
  have := congrArg List.length heq
  simp [encrypt_bytes, secretbox_seal, List.length_append, h24] at this
  omega

/-! ## Claim C5 — decryption-key resolution precedence -/

/-- C5: the decryption key is resolved with strict precedence — the
ephemeral environment override, then the stable environment override, then
the per-project registry entry — and when all three are absent the
operation (including the whole file-application pass) fails with
`MissingDecryptionKey`; the write path's key selection never consults the
environment and is exactly the registry lookup. -/
theorem decryption_key_precedence (env : Env) (keysFile : KeysSource)
    (cfg : Configuration) (v : String) :
    (env TEMP_ENCRYPTION_KEY_NAME = some v →
      resolve_decryption_key env keysFile cfg = EncryptionKey.from_str v) ∧
    (env TEMP_ENCRYPTION_KEY_NAME = none → env ENCRYPTION_KEY_NAME = some v →
      resolve_decryption_key env keysFile cfg = EncryptionKey.from_str v) ∧
    (env TEMP_ENCRYPTION_KEY_NAME = none → env ENCRYPTION_KEY_NAME = none →
      ∀ k : EncryptionKey, encryption_key_for_configuration keysFile cfg = .ok k →
        resolve_decryption_key env keysFile cfg = .ok k) ∧
    (env TEMP_ENCRYPTION_KEY_NAME = none → env ENCRYPTION_KEY_NAME = none →
      ∀ keys : List (String × String), keysFile = .ok keys →
        keys.lookup cfg.project_name = none →
        resolve_decryption_key env keysFile cfg = .error (.err .MissingDecryptionKey) ∧
        ∀ (pathsOf : File → ResolvedPaths) (fs : FS),
          decrypt_files_for_configuration env keysFile pathsOf cfg fs =
            .error (.err .MissingDecryptionKey)) ∧
    (∀ (w : World) (env2 : Env) (c : Configuration),
      encryption_key_step { w with env := env2 } c = encryption_key_step w c ∧
      encryption_key_step w c = encryption_key_for_configuration w.keysFile c) := by
  refine ⟨?_, ?_, ?_, ?_, fun w env2 c => ⟨rfl, rfl⟩⟩
  · intro h
    simp [resolve_decryption_key, h]
  · intro h1 h2
    simp [resolve_decryption_key, h1, h2]
  · intro h1 h2 k hk
    simp [resolve_decryption_key, h1, h2, hk]
  · intro h1 h2 keys hkeys hlook
    have hreg : encryption_key_for_configuration keysFile cfg =
        .error (.err .MissingProjectKey) := by
      simp [encryption_key_for_configuration, hkeys, res_bind_ok, hlook]
    have hres : resolve_decryption_key env keysFile cfg =
        .error (.err .MissingDecryptionKey) := by
      simp [resolve_decryption_key, h1, h2, hreg]
    refine ⟨hres, fun pathsOf fs => ?_⟩
    simp [decrypt_files_for_configuration, hres, res_bind_error]

/-- Witness for C5: concrete environments exercising each precedence level,
an empty registry producing `MissingDecryptionKey`, and a concrete world
showing the write-path key ignores the environment. -/
theorem decryption_key_precedence_witness :
    resolve_decryption_key
      (fun n => if n = "CONFIGURE_ENCRYPTION_KEY_TEMP" then some "k1" else none)
      (.ok []) Configuration.default = EncryptionKey.from_str "k1" ∧
    resolve_decryption_key
      (fun n => if n = "CONFIGURE_ENCRYPTION_KEY" then some "k2" else none)
      (.ok []) Configuration.default = EncryptionKey.from_str "k2" ∧
    resolve_decryption_key (fun _ => none)
      (.ok [("", "AAAAAAAAAAAAAAAAAAAAAAAAAAAAAAAAAAAAAAAAAAA=")])
      Configuration.default =
      .ok ⟨List.replicate 32 0⟩ ∧
    resolve_decryption_key (fun _ => none) (.ok []) Configuration.default =
      .error (.err .MissingDecryptionKey) ∧
    decrypt_files_for_configuration (fun _ => none) (.ok [])
      (fun _ => ⟨"", "", ""⟩) Configuration.default (fun _ => none) =
      .error (.err .MissingDecryptionKey) := by
  have h1 := (decryption_key_precedence
    (fun n => if n = "CONFIGURE_ENCRYPTION_KEY_TEMP" then some "k1" else none)
    (.ok []) Configuration.default "k1").1 (by decide)
  have h2 := (decryption_key_precedence
    (fun n => if n = "CONFIGURE_ENCRYPTION_KEY" then some "k2" else none)
    (.ok []) Configuration.default "k2").2.1 (by decide) (by decide)
  have h3 := (decryption_key_precedence (fun _ => none)
    (.ok [("", "AAAAAAAAAAAAAAAAAAAAAAAAAAAAAAAAAAAAAAAAAAA=")])
    Configuration.default "").2.2.1 rfl rfl ⟨List.replicate 32 0⟩ (by decide)
  have h4 := (decryption_key_precedence (fun _ => none) (.ok [])
    Configuration.default "").2.2.2.1 rfl rfl [] rfl rfl
  exact ⟨h1, h2, h3, h4.1, h4.2 (fun _ => ⟨"", "", ""⟩) (fun _ => none)⟩

/-! ## Claim C6 — backup creation and pruning on the apply path -/

/-- C6: when a mapping's decrypted destination already exists, the existing
file is renamed to the backup path, the encrypted source is decrypted into
the destination, and the backup is then deleted exactly when the digests of
the new file and the backup agree (with the perfect-digest model: when the
old content equals the freshly decrypted content); when they differ the
backup is retained with the old content. -/
theorem apply_file_backup (fs : FS) (key : EncryptionKey) (src dst bak : String)
    (old msg nonce : Bytes)
    (hsrc : fs src = some (encrypt_bytes msg nonce key))
    (hdst : fs dst = some old)
    (h24 : nonce.length = 24)
    (hsd : src ≠ dst) (hbd : bak ≠ dst) (hbs : bak ≠ src) :
    ∃ fs2 : FS, apply_file fs key src dst bak = .ok fs2 ∧
      fs2 dst = some msg ∧
      fs2 bak = (if msg = old then none else some old) := by
  have hsb : src ≠ bak := fun h => hbs h.symm
  have hds : dst ≠ src := fun h => hsd h.symm
  have hdb : dst ≠ bak := fun h => hbd h.symm
  have h1 : setFile (eraseFile fs dst) bak old src = some (encrypt_bytes msg nonce key) := by
    simp [setFile, eraseFile, hsb, hsd, hsrc]
  have h2 : setFile (setFile (eraseFile fs dst) bak old) dst msg dst = some msg := by
    simp [setFile]
  have h3 : setFile (setFile (eraseFile fs dst) bak old) dst msg bak = some old := by
    simp [setFile, hbd]
  have happly : apply_file fs key src dst bak =
      .ok (if msg = old
        then eraseFile (setFile (setFile (eraseFile fs dst) bak old) dst msg) bak
        else setFile (setFile (eraseFile fs dst) bak old) dst msg) := by
    simp only [apply_file, hsrc, hdst, decrypt_file, h1,
      decrypt_bytes_encrypt_bytes msg nonce key h24, hash_file, h2, h3]
    by_cases hmo : msg = old
    · simp [hmo]
    · simp [hmo]
  by_cases hmo : msg = old
  · refine ⟨_, happly, ?_, ?_⟩
    · simp [hmo, eraseFile, hdb, setFile]
    · simp [hmo, eraseFile]
  · refine ⟨_, happly, ?_, ?_⟩
    · simp [hmo, setFile]
    · simp [hmo, setFile, hbd]

/-- Witness for C6: applying over an existing destination with different
content retains the backup holding the old bytes; with identical content
the backup is removed. -/
theorem apply_file_backup_witness :
    (∃ fs2 : FS,
      apply_file
        (fun p => if p = "f.enc"
          then some (encrypt_bytes [1] (List.replicate 24 0) ⟨List.replicate 32 0⟩)
          else if p = "f" then some [2] else none)
        ⟨List.replicate 32 0⟩ "f.enc" "f" "f.bak" = .ok fs2 ∧
      fs2 "f" = some [1] ∧ fs2 "f.bak" = some [2]) ∧
    (∃ fs2 : FS,
      apply_file
        (fun p => if p = "f.enc"
          then some (encrypt_bytes [1] (List.replicate 24 0) ⟨List.replicate 32 0⟩)
          else if p = "f" then some [1] else none)
        ⟨List.replicate 32 0⟩ "f.enc" "f" "f.bak" = .ok fs2 ∧
      fs2 "f" = some [1] ∧ fs2 "f.bak" = none) := by
  constructor
  · obtain ⟨fs2, h, hd, hb⟩ := apply_file_backup
      (fun p => if p = "f.enc"
        then some (encrypt_bytes [1] (List.replicate 24 0) ⟨List.replicate 32 0⟩)
        else if p = "f" then some [2] else none)
      ⟨List.replicate 32 0⟩ "f.enc" "f" "f.bak" [2] [1] (List.replicate 24 0)
      (by simp) (by simp) (by simp) (by simp) (by simp) (by simp)
    refine ⟨fs2, h, hd, ?_⟩
    rw [hb]
    simp
  · obtain ⟨fs2, h, hd, hb⟩ := apply_file_backup
      (fun p => if p = "f.enc"
        then some (encrypt_bytes [1] (List.replicate 24 0) ⟨List.replicate 32 0⟩)
        else if p = "f" then some [1] else none)
      ⟨List.replicate 32 0⟩ "f.enc" "f" "f.bak" [1] [1] (List.replicate 24 0)
      (by simp) (by simp) (by simp) (by simp) (by simp) (by simp)
    refine ⟨fs2, h, hd, ?_⟩
    rw [hb]
    simp

/-! ## Claim C9 — configuration round trip: string-level lemmas -/

theorem hexVal_hexDigitChar : ∀ n, n < 16 → hexVal (hexDigitChar n) = some n := by
  decide

theorem hexVal_zero : hexVal '0' = some 0 := by decide

theorem parseStringBody_escape (l : List Char) (rest : List Char) :
    parseStringBody (l.flatMap escapeChar ++ '"' :: rest) = some (l, rest) := by
  induction l with
  | nil =>
    rw [List.flatMap_nil, List.nil_append]
    rfl
  | cons c t ih =>
    rw [List.flatMap_cons, List.append_assoc]
    by_cases hq : c = '"'
    · subst hq
      rw [show escapeChar '"' = ['\\', '"'] from rfl]
      rw [show (['\\', '"'] : List Char) ++ (t.flatMap escapeChar ++ '"' :: rest) =
        '\\' :: '"' :: (t.flatMap escapeChar ++ '"' :: rest) from rfl]
      simp [parseStringBody, ih]
    · by_cases hb : c = '\\'
      · subst hb
        rw [show escapeChar '\\' = ['\\', '\\'] from rfl]
        rw [show (['\\', '\\'] : List Char) ++ (t.flatMap escapeChar ++ '"' :: rest) =
          '\\' :: '\\' :: (t.flatMap escapeChar ++ '"' :: rest) from rfl]
        simp [parseStringBody, ih]
      · by_cases hc : c.toNat < 32
        · rw [show escapeChar c = ['\\', 'u', '0', '0', hexDigitChar (c.toNat / 16),
            hexDigitChar (c.toNat % 16)] by simp [escapeChar, hq, hb, hc]]
          have hd1 : hexVal (hexDigitChar (c.toNat / 16)) = some (c.toNat / 16) :=
            hexVal_hexDigitChar _ (by omega)
          have hd2 : hexVal (hexDigitChar (c.toNat % 16)) = some (c.toNat % 16) :=
            hexVal_hexDigitChar _ (by omega)
          rw [show (['\\', 'u', '0', '0', hexDigitChar (c.toNat / 16),
            hexDigitChar (c.toNat % 16)] : List Char) ++
              (t.flatMap escapeChar ++ '"' :: rest) =
            '\\' :: 'u' :: '0' :: '0' :: hexDigitChar (c.toNat / 16) ::
              hexDigitChar (c.toNat % 16) :: (t.flatMap escapeChar ++ '"' :: rest) from rfl]
          have hval : (16 * (c.toNat / 16) + c.toNat % 16) = c.toNat := by
            omega
          simp [parseStringBody, hexVal_zero, hd1, hd2, ih, hval]
        · rw [show escapeChar c = [c] by simp [escapeChar, hq, hb, hc]]
          rw [List.singleton_append]
          simp [parseStringBody, hq, hb, ih]

theorem skipWs_cons_of_not_ws (c : Char) (r : List Char) (h : isWs c = false) :
    skipWs (c :: r) = c :: r := by
  simp [skipWs, List.dropWhile_cons, h]

theorem parseJString_render (s : String) (rest : List Char) :
    parseJString (renderString s ++ rest) = some (s, rest) := by
  rw [renderString]
  rw [show ('"' :: (s.data.flatMap escapeChar ++ ['"'])) ++ rest =
    '"' :: (s.data.flatMap escapeChar ++ '"' :: rest) by simp]
  rw [parseJString, skipWs_cons_of_not_ws '"' _ rfl]
  simp only [parseStringBody_escape]

theorem expectChar_cons (c : Char) (r : List Char) (h : isWs c = false) :
    expectChar c (c :: r) = some r := by
  rw [expectChar, skipWs_cons_of_not_ws c r h]
  simp

theorem parseKeyHeader_render (key : String) (rest : List Char) :
    parseKeyHeader key (renderString key ++ ':' :: rest) = some rest := by
  simp [parseKeyHeader, parseJString_render, expectChar_cons ':' rest rfl]

theorem parseStringField_render (key value : String) (rest : List Char) :
    parseStringField key (renderString key ++ ':' :: (renderString value ++ rest)) =
      some (value, rest) := by
  simp [parseStringField, parseKeyHeader_render, parseJString_render]

/-! ## Claim C9 — configuration round trip: object-level lemmas -/

theorem parseFileObj_render (f : File) (rest : List Char) :
    parseFileObj (renderFile f ++ rest) = some (f, rest) := by
  simp only [renderFile, List.cons_append, List.append_assoc]
  simp [parseFileObj, expectChar_cons, isWs, parseStringField_render]

theorem renderFile_length_pos (f : File) : 0 < (renderFile f).length := by
  simp [renderFile]

theorem renderFilesBody_length (fs : List File) :
    fs.length ≤ (renderFilesBody fs).length := by
  induction fs with
  | nil => simp [renderFilesBody]
  | cons f t ih =>
    cases t with
    | nil =>
      have := renderFile_length_pos f
      simp [renderFilesBody]
      omega
    | cons g u =>
      have := renderFile_length_pos f
      simp only [renderFilesBody, List.length_append, List.length_cons] at *
      omega

theorem parseFilesAux_render (fs : List File) (hne : fs ≠ []) :
    ∀ (fuel : Nat) (rest : List Char), fs.length < fuel →
      parseFilesAux fuel (renderFilesBody fs ++ ']' :: rest) = some (fs, rest) := by
  induction fs with
  | nil => exact absurd rfl hne
  | cons f t ih =>
    intro fuel rest hlen
    cases fuel with
    | zero => omega
    | succ n =>
      cases t with
      | nil =>
        simp only [renderFilesBody]
        simp [parseFilesAux, parseFileObj_render, skipWs_cons_of_not_ws ']' rest rfl]
      | cons g u =>
        simp only [renderFilesBody, List.append_assoc, List.cons_append]
        have hrec := ih (by simp) n rest (by simp at hlen ⊢; omega)
        simp [parseFilesAux, parseFileObj_render,
          skipWs_cons_of_not_ws ',' _ rfl, hrec]

theorem renderFilesBody_cons_head (f : File) (t : List File) :
    ∃ X : List Char, renderFilesBody (f :: t) = '{' :: X := by
  cases t with
  | nil => exact ⟨_, rfl⟩
  | cons g u =>
    rw [show renderFilesBody (f :: g :: u) =
      renderFile f ++ ',' :: renderFilesBody (g :: u) from rfl]
    rw [renderFile, List.cons_append]
    exact ⟨_, rfl⟩

theorem parseFilesList_render (fs : List File) (rest : List Char) :
    parseFilesList ('[' :: (renderFilesBody fs ++ ']' :: rest)) = some (fs, rest) := by
  cases fs with
  | nil =>
    simp [parseFilesList, renderFilesBody, expectChar_cons '[' _ rfl,
      skipWs_cons_of_not_ws ']' rest rfl]
  | cons f t =>
    obtain ⟨X, hX⟩ := renderFilesBody_cons_head f t
    have hlen : (f :: t).length < ('{' :: (X ++ ']' :: rest)).length + 1 := by
      have h1 := renderFilesBody_length (f :: t)
      rw [hX] at h1
      simp only [List.length_cons, List.length_append] at *
      omega
    have hparse := parseFilesAux_render (f :: t) (by simp)
      (('{' :: (X ++ ']' :: rest)).length + 1) rest hlen
    rw [hX, show ('{' :: X) ++ ']' :: rest = '{' :: (X ++ ']' :: rest) from rfl] at hparse ⊢
    rw [parseFilesList]
    simp only [expectChar_cons '[' _ rfl, opt_bind_some, option_bind_some, bind,
      skipWs_cons_of_not_ws '{' _ rfl]
    simpa using hparse

theorem parseConfigurationChars_render (c : Configuration) :
    parseConfigurationChars (renderConfiguration c) = some c := by
  obtain ⟨pn, br, ph, fls⟩ := c
  simp only [renderConfiguration, List.cons_append, List.append_assoc]
  rw [parseConfigurationChars]
  simp only [expectChar_cons '{' _ rfl, opt_bind_some, option_bind_some, bind,
    parseStringField_render, expectChar_cons ',' _ rfl, parseKeyHeader_render,
    parseFilesList_render, expectChar_cons '}' _ rfl]
  simp [skipWs]

/-- C9: configuration records round-trip exactly through serialization and
parsing; the default record satisfies `is_empty`; and a string the JSON
layer cannot parse yields the `ConfigureFileNotValid` error rather than a
record. -/
theorem configuration_roundtrip :
    (∀ (c : Configuration) (s : String),
      Configuration.to_string c = .ok s → Configuration.from_str s = .ok c) ∧
    Configuration.is_empty Configuration.default = true ∧
    (∀ s : String, parseConfigurationChars s.data = none →
      Configuration.from_str s = .error (.err .ConfigureFileNotValid)) := by
  refine ⟨?_, rfl, ?_⟩
  · intro c s h
    have hs : s = ⟨renderConfiguration c⟩ := by
      rw [Configuration.to_string] at h
      exact (Except.ok.inj h).symm
    subst hs
    rw [Configuration.from_str]
    rw [show (⟨renderConfiguration c⟩ : String).data = renderConfiguration c from rfl]
    rw [parseConfigurationChars_render]
  · intro s h
    rw [Configuration.from_str, h]

/-- Witness for C9: the default configuration's rendered form parses back
to the default record, and the empty string is rejected as invalid. -/
theorem configuration_roundtrip_witness :
    Configuration.from_str
      "\x7b\"project_name\":\"\",\"branch\":\"\",\"pinned_hash\":\"\",\"files_to_copy\":[]\x7d" =
      .ok Configuration.default ∧
    Configuration.from_str "" = .error (.err .ConfigureFileNotValid) := by
  constructor
  · have h := configuration_roundtrip.1 Configuration.default
      ⟨renderConfiguration Configuration.default⟩ rfl
    have hstr :
        ("\x7b\"project_name\":\"\",\"branch\":\"\",\"pinned_hash\":\"\",\"files_to_copy\":[]\x7d" :
          String) = ⟨renderConfiguration Configuration.default⟩ := by
      decide
    rw [hstr]
    exact h
  · exact configuration_roundtrip.2.2 "" rfl

/-! ## Claim C1 — the update protocol restores the store and preserves a
current pin -/

theorem update_local_copy_repo (w : World) : (update_local_copy w).repo = w.repo := rfl

theorem switch_to_branch_at_revision_repo (w : World) (b r : String) :
    (switch_to_branch_at_revision w b r).repo = ⟨b, r⟩ := by
  rw [switch_to_branch_at_revision]
  by_cases h : b = "HEAD"
  · simp [h]
  · simp [h]

theorem write_encrypted_step_repo (w w4 : World) (c : Configuration)
    (k : EncryptionKey) (h : write_encrypted_step w c k = .ok w4) :
    w4.repo = w.repo := by
  rw [write_encrypted_step] at h
  rcases hW : write_encrypted_files_for_configuration (w.contentAt w.repo.hash)
      w.projectFS w.pathsOf w.nonceOf c k with fs | e
  · rw [hW] at h
    exact Except.noConfusion h
  · rw [hW] at h
    rw [← Except.ok.inj h]

theorem apply_configuration_step_repo (w w6 : World) (c : Configuration)
    (h : apply_configuration_step w c = .ok w6) : w6.repo = w.repo := by
  rw [apply_configuration_step] at h
  rcases hW : decrypt_files_for_configuration w.env w.keysFile w.pathsOf c
      w.projectFS with fs | e
  · rw [hW] at h
    exact Except.noConfusion h
  · rw [hW] at h
    rw [← Except.ok.inj h]

/-- C1: every completed run of the update protocol leaves the secrets
store's checked-out branch and revision at the baseline captured in step 1
(the rollback step restores them no matter what happened in between), and
when the configuration's pinned hash already equals the latest remote hash
of the tracked branch (after the optional interactive branch repoint), the
returned configuration's pinned hash equals its initial value. -/
theorem update_configuration_frame (w0 : World) (cfg0 : Configuration)
    (interactive : Bool) (chosenBranch : String)
    (confirmContinue confirmAdvance : Bool) (cfgR : Configuration) (wR : World)
    (hrun : update_configuration w0 cfg0 interactive chosenBranch
      confirmContinue confirmAdvance = .ok (cfgR, wR))
    (hpin : cfg0.pinned_hash =
      w0.remoteHash (if interactive then chosenBranch else cfg0.branch)) :
    wR.repo = w0.repo ∧ cfgR.pinned_hash = cfg0.pinned_hash := by
  have hbranch :
      (if interactive then { cfg0 with branch := chosenBranch } else cfg0).branch =
        (if interactive then chosenBranch else cfg0.branch) := by
    cases interactive <;> rfl
  have hpin1 :
      (if interactive then { cfg0 with branch := chosenBranch } else cfg0).pinned_hash =
        cfg0.pinned_hash := by
    cases interactive <;> rfl
  have hdist : commits_ahead_of_configuration (update_local_copy w0)
      (if interactive then { cfg0 with branch := chosenBranch } else cfg0) = .ok 0 := by
    rw [commits_ahead_of_configuration]
    rw [show (update_local_copy w0).remoteHash = w0.remoteHash from rfl]
    rw [hbranch, hpin1]
    rw [distance_between_local_commit_hashes, if_pos hpin]
    rfl
  rw [update_configuration] at hrun
  simp only [hdist, if_true, expectRes, latest_remote_hash_for_branch] at hrun
  split at hrun
  · exact Except.noConfusion hrun
  · split at hrun
    · -- declined to continue: early return, nothing moved
      have hp := Except.ok.inj hrun
      have hc := congrArg Prod.fst hp
      have hw := congrArg Prod.snd hp
      simp only at hc hw
      rw [← hw, ← hc]
      exact ⟨rfl, hpin1⟩
    · -- the run went to completion through the rollback step
      split at hrun
      · exact Except.noConfusion hrun
      · split at hrun
        · exact Except.noConfusion hrun
        · rename_i w4 hwe
          split at hrun
          · exact Except.noConfusion hrun
          · rename_i w6 happ
            have hp := Except.ok.inj hrun
            have hc := congrArg Prod.fst hp
            have hw := congrArg Prod.snd hp
            simp only at hc hw
            constructor
            · rw [← hw]
              rw [apply_configuration_step_repo _ _ _ happ]
              rw [switch_to_branch_at_revision_repo]
            · rw [← hc]
              simp only
              rw [show (update_local_copy w0).remoteHash = w0.remoteHash from rfl,
                hbranch, ← hpin]

/-- Witness for C1: a concrete complete non-interactive run whose pin
already equals the remote tip; the store's checkout is restored and the pin
is unchanged. -/
theorem update_configuration_frame_witness :
    ∃ p : Configuration × World,
      update_configuration
        { repo := ⟨"main", "h1"⟩, fetched := false, remoteHash := fun _ => "h1",
          logLines := .ok ["h1"], statusText := "## main...origin/main",
          env := fun _ => none,
          keysFile := .ok [("p", "AAAAAAAAAAAAAAAAAAAAAAAAAAAAAAAAAAAAAAAAAAA=")],
          contentAt := fun _ _ => none, projectFS := fun _ => none,
          pathsOf := fun _ => ⟨"", "", ""⟩,
          nonceOf := fun _ => List.replicate 24 0,
          cfgFile := none }
        ⟨"p", "main", "h1", []⟩ false "main" true true = .ok p ∧
      p.2.repo = (⟨"main", "h1"⟩ : RepoState) ∧
      p.1.pinned_hash = "h1" := by
  obtain ⟨p, hp⟩ : ∃ p : Configuration × World,
      update_configuration
        { repo := ⟨"main", "h1"⟩, fetched := false, remoteHash := fun _ => "h1",
          logLines := .ok ["h1"], statusText := "## main...origin/main",
          env := fun _ => none,
          keysFile := .ok [("p", "AAAAAAAAAAAAAAAAAAAAAAAAAAAAAAAAAAAAAAAAAAA=")],
          contentAt := fun _ _ => none, projectFS := fun _ => none,
          pathsOf := fun _ => ⟨"", "", ""⟩,
          nonceOf := fun _ => List.replicate 24 0,
          cfgFile := none }
        ⟨"p", "main", "h1", []⟩ false "main" true true = .ok p :=
    ⟨_, rfl⟩
  obtain ⟨h1, h2⟩ := update_configuration_frame _ _ _ _ _ _ p.1 p.2 hp rfl
  exact ⟨p, hp, h1, h2⟩

end Configure
